import Mathlib

/-!
Verification of the jira-spillover-get issue pipeline.

This file shallowly embeds the core logic of `jira-spillover-get.go`:
the sprint field parser, the epic resolver, the paginated issue
pipeline, and the tabular writer.  External collaborators (the HTTP
endpoints and the Go standard-library timestamp parsers) are modelled
as oracle parameters; everything else is translated directly from the
source.  File contents are modelled as lists of characters, and the
dynamic (`interface` typed) JSON values that Jira returns are modelled
by explicit inductive value types.
-/

set_option autoImplicit false

namespace JiraSpillover

/-! ## Data model (structs from the source) -/

/-- `IssueType` from the source: issue type information. -/
structure IssueType where
  name : String
deriving Repr, DecidableEq

/-- `Status` from the source: issue status information. -/
structure Status where
  name : String
deriving Repr, DecidableEq

/-- `Assignee` from the source. -/
structure Assignee where
  displayName : String
deriving Repr, DecidableEq

/-- `Creator` from the source. -/
structure Creator where
  displayName : String
deriving Repr, DecidableEq

/-- `Project` from the source. -/
structure Project where
  key : String
  name : String
deriving Repr, DecidableEq

/-- `FixVersion` from the source. -/
structure FixVersion where
  name : String
deriving Repr, DecidableEq

/-- `Component` from the source. -/
structure Component where
  name : String
deriving Repr, DecidableEq

/-- `Resolution` from the source. -/
structure Resolution where
  name : String
deriving Repr, DecidableEq

/-- `PairMember` from the source: pair programming member information. -/
structure PairMember where
  displayName : String
deriving Repr, DecidableEq

/-- Dynamic Go values: the shape of a decoded `interface` field
(`SprintField`, `EpicLinkField`).  The `strList` constructor mirrors the
`[]string` case of the source's type switch. -/
inductive GoVal where
  | null
  | bool (b : Bool)
  | num (n : Int)
  | str (s : String)
  | strList (ss : List String)
  | list (xs : List GoVal)
  | map (fields : List (String × GoVal))

/-- Raw JSON values, as held by `json.RawMessage` entries of
`AdditionalFields`.  JSON numbers are abstracted to integers; the pair
field decoders only distinguish shapes, never numeric values. -/
inductive Json where
  | null
  | bool (b : Bool)
  | num (n : Int)
  | str (s : String)
  | arr (xs : List Json)
  | obj (fields : List (String × Json))

/-- First-match association lookup on decoded Go map fields.  Decoded Go
maps have unique keys, so first match equals map access. -/
def lookupGo : List (String × GoVal) → String → Option GoVal
  | [], _ => none
  | (k, v) :: rest, key => if k = key then some v else lookupGo rest key

/-- First-match association lookup on JSON object fields. -/
def lookupJson : List (String × Json) → String → Option Json
  | [], _ => none
  | (k, v) :: rest, key => if k = key then some v else lookupJson rest key

/-- `IssueFields` from the source.  Pointer-typed fields become
`Option`; the `StoryPoints` dynamic value is modelled by the string its
`%v` rendering produces (only that rendering is ever used). -/
structure IssueFields where
  issueType : IssueType
  status : Status
  summary : String
  updated : Option String
  created : Option String
  resolutionDate : Option String
  assignee : Option Assignee
  creator : Option Creator
  project : Project
  fixVersions : List FixVersion
  components : List Component
  labels : List String
  resolution : Option Resolution
  storyPoints : Option String
  sprintField : GoVal
  epicLinkField : GoVal
  additionalFields : List (String × Json)

/-- `Issue` from the source. -/
structure Issue where
  key : String
  fields : IssueFields

/-- `SprintInfo` from the source. -/
structure SprintInfo where
  SprintCount : Nat
  SprintNames : List String
  FirstSprint : String
  LastSprint : String
  AllSprints : String
deriving Repr, DecidableEq

/-- `MultisprintIssue` from the source; `ResolvedDate` holds the oracle
value produced by the RFC3339 parse, when it succeeded. -/
structure MultisprintIssue where
  issue : Issue
  workedSprints : Nat
  epicLink : String
  resolvedDate : Option Int
  sprintInfo : SprintInfo

/-- `SearchResponse` from the source. -/
structure SearchResponse where
  issues : List Issue
  total : Nat
  startAt : Nat
  maxResults : Nat

/-- One paginated search request as issued by `fetchAllJiraIssues`:
the JQL filter, the field-selection list, the starting offset and the
page-size cap. -/
structure SearchRequest where
  jql : String
  fields : String
  startAt : Nat
  maxResults : Nat
deriving Repr, DecidableEq

/-- `EpicFieldsLookup` from the source. -/
structure EpicFieldsLookup where
  summary : String
deriving Repr, DecidableEq

/-- `EpicInfo` from the source. -/
structure EpicInfo where
  key : String
  fields : EpicFieldsLookup
deriving Repr, DecidableEq

/-- `batchSize` constant from the source. -/
def batchSize : Nat := 100

/-! ## Sprint field parser -/

/-- The capture of the regular expression `name=([^,]+)` when it matches
at the head of `s`: the maximal run of non-comma characters after the
literal `name=` (at least one character is required). -/
def nameCapture (s : List Char) : List Char :=
  (s.drop 5).takeWhile (fun ch => ch != ',')

/-- Leftmost match of `name=([^,]+)` over a character list: scan left to
right and return the first successful capture. -/
def goExtractName : List Char → Option (List Char)
  | [] => none
  | c :: rest =>
    if ("name=".data.isPrefixOf (c :: rest)) && !(nameCapture (c :: rest)).isEmpty
    then some (nameCapture (c :: rest))
    else goExtractName rest

/-- `nameRegex.FindStringSubmatch` from the source, specialised to the
pattern `name=([^,]+)`: the first captured sprint name, if any. -/
def extractSprintName (s : String) : Option String :=
  (goExtractName s.data).map (fun cs => ⟨cs⟩)

/-- One step of the source's seen-set bookkeeping: `uniqueNames` holds
exactly the members of the accumulated list, so appending on first
occurrence is appending when not already a member. -/
def addUnique (acc : List String) (sprintName : String) : List String :=
  if sprintName ∈ acc then acc else acc ++ [sprintName]

/-- `parseSprintField` from the source: normalise the heterogeneous
sprint-history value into a `SprintInfo`.  In the source, fields of the
result other than the name list are only assigned when the list is
non-empty; `headD`/`getLastD` with the zero value `""` and
`String.intercalate` (which yields `""` on `[]`) reproduce that. -/
def parseSprintField (sprintField : GoVal) : SprintInfo :=
  let names : List String :=
    match sprintField with
    | .null => []
    | .list v =>
      v.foldl (fun acc sprint =>
        match sprint with
        | .map sprintMap =>
          match lookupGo sprintMap "name" with
          | some (.str sprintName) => addUnique acc sprintName
          | _ => acc
        | .str sprintStr =>
          match extractSprintName sprintStr with
          | some sprintName => addUnique acc sprintName
          | none => acc
        | _ => acc) []
    | .strList v =>
      v.foldl (fun acc sprintStr =>
        match extractSprintName sprintStr with
        | some sprintName => addUnique acc sprintName
        | none => acc) []
    | .str v =>
      match extractSprintName v with
      | some sprintName => addUnique [] sprintName
      | none => []
    | _ => []
  { SprintCount := names.length
    SprintNames := names
    FirstSprint := names.headD ""
    LastSprint := names.getLastD ""
    AllSprints := String.intercalate ", " names }

/-- The sprint name extracted from one entry of a sprint-history array:
structured records carry a `name` attribute, legacy strings are matched
against `name=([^,]+)`. -/
def entryName : GoVal → Option String
  | .map sprintMap =>
    match lookupGo sprintMap "name" with
    | some (.str sprintName) => some sprintName
    | _ => none
  | .str sprintStr => extractSprintName sprintStr
  | _ => none

/-- All sprint names extracted from a sprint-history value, in encounter
order, duplicates included. -/
def extractedNames : GoVal → List String
  | .null => []
  | .list v => v.filterMap entryName
  | .strList v => v.filterMap extractSprintName
  | .str v => (extractSprintName v).toList
  | _ => []

/-- First-seen-order deduplication: keep the first occurrence of each
name, in encounter order. -/
def dedupFirst (l : List String) : List String :=
  l.foldl addUnique []

/-! ### Dedup lemmas -/

theorem mem_addUnique (acc : List String) (n x : String) :
    x ∈ addUnique acc n ↔ x ∈ acc ∨ x = n := by
  unfold addUnique
  by_cases h : n ∈ acc
  · simp only [if_pos h]
    constructor
    · tauto
    · rintro (hx | rfl) <;> assumption
  · simp [if_neg h]

theorem nodup_addUnique (acc : List String) (n : String) (h : acc.Nodup) :
    (addUnique acc n).Nodup := by
  unfold addUnique
  by_cases hn : n ∈ acc <;> simp [hn, List.Nodup.append, h]

theorem foldl_addUnique_nodup (l : List String) :
    ∀ acc : List String, acc.Nodup → (l.foldl addUnique acc).Nodup := by
  induction l with
  | nil => intro acc h; simpa using h
  | cons a l ih =>
    intro acc h
    exact ih (addUnique acc a) (nodup_addUnique acc a h)

theorem mem_foldl_addUnique (l : List String) :
    ∀ acc x, x ∈ l.foldl addUnique acc ↔ x ∈ acc ∨ x ∈ l := by
  induction l with
  | nil => intro acc x; simp
  | cons a l ih =>
    intro acc x
    simp [List.foldl_cons, ih, mem_addUnique]
    tauto

theorem dedupFirst_nodup (l : List String) : (dedupFirst l).Nodup :=
  foldl_addUnique_nodup l [] List.nodup_nil

theorem mem_dedupFirst (l : List String) (x : String) :
    x ∈ dedupFirst l ↔ x ∈ l := by
  simpa using mem_foldl_addUnique l [] x

/-- Fusing the fold of `parseSprintField` (extract, then add on first
occurrence) through `filterMap`. -/
theorem foldl_extract_eq_dedup (f : GoVal → Option String) (v : List GoVal) :
    ∀ acc : List String,
      v.foldl (fun acc x => match f x with
        | some n => addUnique acc n
        | none => acc) acc
        = (v.filterMap f).foldl addUnique acc := by
  induction v with
  | nil => intro acc; simp
  | cons a v ih =>
    intro acc
    cases h : f a <;> simp [List.filterMap_cons, h, ih]

theorem foldl_extract_eq_dedup_str (f : String → Option String) (v : List String) :
    ∀ acc : List String,
      v.foldl (fun acc x => match f x with
        | some n => addUnique acc n
        | none => acc) acc
        = (v.filterMap f).foldl addUnique acc := by
  induction v with
  | nil => intro acc; simp
  | cons a v ih =>
    intro acc
    cases h : f a <;> simp [List.filterMap_cons, h, ih]

/-- The name list built by `parseSprintField` is exactly the first-seen
deduplication of the extracted names. -/
theorem parseSprintField_names (v : GoVal) :
    (parseSprintField v).SprintNames = dedupFirst (extractedNames v) := by
  cases v with
  | null => rfl
  | bool b => rfl
  | num n => rfl
  | strList ss =>
    show ss.foldl _ [] = dedupFirst (ss.filterMap extractSprintName)
    rw [dedupFirst, ← foldl_extract_eq_dedup_str extractSprintName ss []]
  | str s =>
    show (match extractSprintName s with
      | some sprintName => addUnique [] sprintName
      | none => []) = dedupFirst ((extractSprintName s).toList)
    cases h : extractSprintName s <;> simp [h, dedupFirst, Option.toList]
  | list xs =>
    show xs.foldl _ [] = dedupFirst (xs.filterMap entryName)
    rw [dedupFirst, ← foldl_extract_eq_dedup entryName xs]
    congr 1
    funext acc x
    cases x with
    | map fields =>
      cases h : lookupGo fields "name" with
      | none => simp [entryName, h]
      | some val => cases val <;> simp [entryName, h]
    | null => rfl
    | bool b => rfl
    | num n => rfl
    | str s => simp [entryName]
    | strList ss => rfl
    | list ys => rfl
  | map fields => rfl

/-! ## Epic resolver -/

/-- Outcome of one epic lookup request, as seen by `fetchEpicTitles`:
either a transport-level failure (request creation, network send, or
body read), or an HTTP response with a status code and a decode outcome
for the body. -/
inductive EpicLookupOutcome where
  | transportError
  | response (status : Nat) (body : Except String EpicInfo)

/-- The title string `fetchEpicTitles` records for one epic key, given
the outcome of its lookup: any failure yields the lookup-failed
sentinel, a successful lookup with an empty summary yields the no-title
sentinel, and otherwise the summary itself is recorded. -/
def epicTitleFor : EpicLookupOutcome → String
  | .transportError => "Epic Summary Lookup Failed"
  | .response status body =>
    if status ≠ 200 then "Epic Summary Lookup Failed"
    else
      match body with
      | .error _ => "Epic Summary Lookup Failed"
      | .ok epicInfo =>
        if epicInfo.fields.summary ≠ "" then epicInfo.fields.summary
        else "No Epic Title"

/-- `fetchEpicTitles` from the source: one lookup per key, every failure
recorded as a sentinel with processing continuing.  The Go map is
modelled as a function from keys to optional titles; the source always
returns a `nil` error alongside the map, so no error component appears
here. -/
def fetchEpicTitles (lookup : String → EpicLookupOutcome) (epicKeys : List String) :
    String → Option String :=
  epicKeys.foldl
    (fun epicTitles epicKey =>
      fun x => if x = epicKey then some (epicTitleFor (lookup epicKey)) else epicTitles x)
    (fun _ => none)

theorem fetchEpicTitles_foldl_not_mem (lookup : String → EpicLookupOutcome)
    (epicKeys : List String) :
    ∀ (m : String → Option String) (k : String), k ∉ epicKeys →
      epicKeys.foldl
        (fun epicTitles epicKey =>
          fun x => if x = epicKey then some (epicTitleFor (lookup epicKey)) else epicTitles x)
        m k = m k := by
  induction epicKeys with
  | nil => intro m k _; rfl
  | cons a keys ih =>
    intro m k hk
    have hka : k ≠ a := fun h => hk (h ▸ List.mem_cons_self a keys)
    have hkk : k ∉ keys := fun h => hk (List.mem_cons_of_mem a h)
    simp only [List.foldl_cons]
    rw [ih _ k hkk]
    simp [hka]

theorem fetchEpicTitles_mem (lookup : String → EpicLookupOutcome)
    (epicKeys : List String) :
    ∀ (m : String → Option String) (k : String), k ∈ epicKeys →
      epicKeys.foldl
        (fun epicTitles epicKey =>
          fun x => if x = epicKey then some (epicTitleFor (lookup epicKey)) else epicTitles x)
        m k = some (epicTitleFor (lookup k)) := by
  induction epicKeys with
  | nil => intro m k hk; exact absurd hk (List.not_mem_nil k)
  | cons a keys ih =>
    intro m k hk
    by_cases hmem : k ∈ keys
    · simpa only [List.foldl_cons] using ih _ k hmem
    · have hka : k = a := by
        rcases List.mem_cons.mp hk with h | h
        · exact h
        · exact absurd h hmem
      subst hka
      simp only [List.foldl_cons]
      rw [fetchEpicTitles_foldl_not_mem lookup keys _ k hmem]
      simp

/-- `getEpicLink` from the source. -/
def getEpicLink : GoVal → String
  | .null => "No Epic"
  | .str epicKey => if epicKey ≠ "" then epicKey else "No Epic"
  | _ => "No Epic"

/-! ## Claim C1 -/

/-- Claim C1: for every sprint-history value, the sprint field parser
returns a `SprintInfo` whose name list contains each extracted sprint
name exactly once, in first-seen (encounter) order, whose count equals
the length of that list, and whose first/last sprint fields are set
only when the count is positive. -/
theorem C1_sprint_parser_unique_first_seen (v : GoVal) :
    (parseSprintField v).SprintNames = dedupFirst (extractedNames v) ∧
    (parseSprintField v).SprintNames.Nodup ∧
    (∀ n, (parseSprintField v).SprintNames.count n
        = if n ∈ extractedNames v then 1 else 0) ∧
    (parseSprintField v).SprintCount = (parseSprintField v).SprintNames.length ∧
    (parseSprintField v).FirstSprint = (parseSprintField v).SprintNames.headD "" ∧
    (parseSprintField v).LastSprint = (parseSprintField v).SprintNames.getLastD "" ∧
    ((parseSprintField v).SprintCount = 0 →
      (parseSprintField v).FirstSprint = "" ∧ (parseSprintField v).LastSprint = ""
        ∧ (parseSprintField v).AllSprints = "") := by
  refine ⟨parseSprintField_names v, ?_, ?_, rfl, rfl, rfl, ?_⟩
  · rw [parseSprintField_names]
    exact dedupFirst_nodup _
  · intro n
    rw [parseSprintField_names]
    by_cases h : n ∈ extractedNames v
    · rw [if_pos h]
      exact List.count_eq_one_of_mem (dedupFirst_nodup _) ((mem_dedupFirst _ _).mpr h)
    · rw [if_neg h]
      exact List.count_eq_zero_of_not_mem (fun hc => h ((mem_dedupFirst _ _).mp hc))
  · intro h0
    have hnil : (parseSprintField v).SprintNames = [] :=
      List.eq_nil_of_length_eq_zero h0
    refine ⟨?_, ?_, ?_⟩
    · show (parseSprintField v).SprintNames.headD "" = ""
      rw [hnil]
      rfl
    · show (parseSprintField v).SprintNames.getLastD "" = ""
      rw [hnil]
      rfl
    · show String.intercalate ", " (parseSprintField v).SprintNames = ""
      rw [hnil]
      rfl

/-- Witness for C1: the implication clause discharged at the null
sprint-history value. -/
theorem C1_sprint_parser_unique_first_seen_witness :
    (parseSprintField GoVal.null).SprintCount = 0 ∧
    (parseSprintField GoVal.null).FirstSprint = "" :=
  ⟨rfl, ((C1_sprint_parser_unique_first_seen GoVal.null).2.2.2.2.2.2 rfl).1⟩

/-! ## Claim C6 -/

/-- Claim C6: per-key epic lookups are isolated.  Every input key ends
up with an entry in the returned map, whose value depends only on that
key's own lookup outcome; any failure (transport error, non-200 status,
malformed body) maps to the lookup-failed sentinel, a successful lookup
with a missing or empty title maps to the distinct no-title sentinel. -/
theorem C6_epic_resolver_isolation (lookup : String → EpicLookupOutcome)
    (epicKeys : List String) :
    (∀ k, k ∈ epicKeys →
      fetchEpicTitles lookup epicKeys k = some (epicTitleFor (lookup k))) ∧
    epicTitleFor .transportError = "Epic Summary Lookup Failed" ∧
    (∀ status body, status ≠ 200 →
      epicTitleFor (.response status body) = "Epic Summary Lookup Failed") ∧
    (∀ e, epicTitleFor (.response 200 (.error e)) = "Epic Summary Lookup Failed") ∧
    (∀ key, epicTitleFor (.response 200 (.ok ⟨key, ⟨""⟩⟩)) = "No Epic Title") ∧
    "Epic Summary Lookup Failed" ≠ "No Epic Title" := by
  refine ⟨?_, rfl, ?_, fun e => rfl, fun key => rfl, by decide⟩
  · intro k hk
    exact fetchEpicTitles_mem lookup epicKeys _ k hk
  · intro status body h
    simp [epicTitleFor, h]

/-- Witness for C6: a 404 on the only key yields the lookup-failed
sentinel for that key. -/
theorem C6_epic_resolver_isolation_witness :
    fetchEpicTitles (fun _ => EpicLookupOutcome.response 404 (Except.error "not found"))
      ["EP-1"] "EP-1" = some "Epic Summary Lookup Failed" :=
  (C6_epic_resolver_isolation
      (fun _ => EpicLookupOutcome.response 404 (Except.error "not found")) ["EP-1"]).1
    "EP-1" (List.mem_singleton_self _)

/-! ## Field extraction and the pair field -/

/-- Go `json.Unmarshal` of one JSON value into a `string`: null leaves
the zero value, a JSON string fills it, anything else fails. -/
def decodeStringElem : Json → Option String
  | .null => some ""
  | .str s => some s
  | _ => none

/-- Go `json.Unmarshal` of one JSON value into a `PairMember` struct:
null leaves the zero value, an object fills `displayName` from a string
attribute (absence or null leaves it empty), anything else fails. -/
def decodePairMember : Json → Option String
  | .null => some ""
  | .obj fields =>
    match lookupJson fields "displayName" with
    | none => some ""
    | some .null => some ""
    | some (.str s) => some s
    | some _ => none
  | _ => none

/-- Go `json.Unmarshal` into `[]PairMember`: null yields the nil slice,
an array decodes element-wise, anything else fails. -/
def decodePairMembers : Json → Option (List String)
  | .null => some []
  | .arr xs => xs.mapM decodePairMember
  | _ => none

/-- Go `json.Unmarshal` into `[]string`. -/
def decodeStringList : Json → Option (List String)
  | .null => some []
  | .arr xs => xs.mapM decodeStringElem
  | _ => none

/-- Fourth interpretation attempt of the pair field raw value: a single
non-empty plain string; otherwise nothing parsed and the value is
empty. -/
def pairAttemptString (raw : Json) : String :=
  match decodeStringElem raw with
  | some s => if s ≠ "" then s else ""
  | none => ""

/-- Third attempt: a non-empty array of plain strings, joined. -/
def pairAttemptStringArray (raw : Json) : String :=
  match decodeStringList raw with
  | some (x :: xs) => String.intercalate ", " (x :: xs)
  | _ => pairAttemptString raw

/-- Second attempt: a single object with a non-empty display name. -/
def pairAttemptSingleObject (raw : Json) : String :=
  match decodePairMember raw with
  | some s => if s ≠ "" then s else pairAttemptStringArray raw
  | none => pairAttemptStringArray raw

/-- Pair-field raw value interpretation from the source: try, in order,
an array of display-name objects (non-empty), a single such object, an
array of plain strings (non-empty), then a single plain string; the
first successful attempt wins and its values are joined by a comma and
a space; when nothing parses the value is empty. -/
def pairRawValue (raw : Json) : String :=
  match decodePairMembers raw with
  | some (x :: xs) => String.intercalate ", " (x :: xs)
  | _ => pairAttemptSingleObject raw

/-- The per-field string map built by `extractFieldValues`, one
structure field per key the source stores. -/
structure FieldValues where
  issueType : String
  status : String
  projectName : String
  updatedDate : String
  createdDate : String
  resolvedDate : String
  assignee : String
  reporter : String
  storyPoints : String
  fixVersions : String
  components : String
  labels : String
  resolution : String
  pair : String
deriving Repr, DecidableEq

/-- `formatDate` from the source: a null or empty timestamp yields the
empty string; otherwise the parser chain (RFC3339 first, then the
fallback formats — modelled by the oracle `dateFmt`, which returns the
calendar-date rendering of the first format that parses) decides the
value, an unparseable timestamp yielding the empty string. -/
def formatDate (dateFmt : String → Option String) (datePtr : Option String) : String :=
  match datePtr with
  | none => ""
  | some s => if s = "" then "" else (dateFmt s).getD ""

/-- `extractFieldValues` from the source.  A key present in
`AdditionalFields` always carries a non-nil raw message, so the
source's `ok && raw != nil` test is plain lookup success here. -/
def extractFieldValues (dateFmt : String → Option String)
    (pairFieldProvided : Bool) (pairFieldName : String) (issue : Issue) : FieldValues :=
  { issueType := issue.fields.issueType.name
    status := issue.fields.status.name
    projectName := issue.fields.project.name
    updatedDate := formatDate dateFmt issue.fields.updated
    createdDate := formatDate dateFmt issue.fields.created
    resolvedDate := formatDate dateFmt issue.fields.resolutionDate
    assignee :=
      match issue.fields.assignee with
      | some a => a.displayName
      | none => "Unassigned"
    reporter :=
      match issue.fields.creator with
      | some c => c.displayName
      | none => "Unknown"
    storyPoints :=
      match issue.fields.storyPoints with
      | some sp => sp
      | none => "N/A"
    fixVersions := String.intercalate ", " (issue.fields.fixVersions.map FixVersion.name)
    components := String.intercalate ", " (issue.fields.components.map Component.name)
    labels := String.intercalate ", " issue.fields.labels
    resolution :=
      match issue.fields.resolution with
      | some r => r.name
      | none => ""
    pair :=
      if pairFieldProvided && !(pairFieldName == "") then
        match lookupJson issue.fields.additionalFields pairFieldName with
        | some raw => pairRawValue raw
        | none => ""
      else "Pair" }

/-! ## Tabular writer -/

/-- The fixed 22-column header row from the source. -/
def headerFields : List String :=
  ["Issue Type", "Issue Key", "Summary", "Status", "Updated Date", "Created Date",
   "Resolved Date", "Assignee", "Pair", "Project", "Fix Versions", "Components",
   "Story Points", "Epic Link", "Epic Summary", "Labels", "Resolution", "Reporter",
   "Number of Sprints", "First Sprint", "Last Sprint", "All Sprints"]

/-- Separator join at character level (`strings.Join` over the field
texts). -/
def joinCh (sep : Char) : List (List Char) → List Char
  | [] => []
  | [f] => f
  | f :: g :: fs => f ++ sep :: joinCh sep (g :: fs)

/-- The derived data row for one multi-sprint issue, in the source's
column order (the row literal of `writeOutputFile`). -/
def buildRow (dateFmt : String → Option String) (pairFieldProvided : Bool)
    (pairFieldName : String) (epicTitles : String → Option String)
    (mi : MultisprintIssue) : List String :=
  let issue := mi.issue
  let values := extractFieldValues dateFmt pairFieldProvided pairFieldName issue
  let epicTitle0 := (epicTitles mi.epicLink).getD ""
  let epicTitle := if epicTitle0 = "" then "No Epic Summary" else epicTitle0
  [values.issueType, issue.key, issue.fields.summary, values.status,
   values.updatedDate, values.createdDate, values.resolvedDate, values.assignee,
   values.pair, values.projectName, values.fixVersions, values.components,
   values.storyPoints, mi.epicLink, epicTitle, values.labels, values.resolution,
   values.reporter, toString mi.sprintInfo.SprintCount, mi.sprintInfo.FirstSprint,
   mi.sprintInfo.LastSprint, mi.sprintInfo.AllSprints]

/-- The header line, as characters. -/
def headerChars : List Char := joinCh '\t' (headerFields.map String.data)

/-- One data line, as characters. -/
def rowChars (dateFmt : String → Option String) (pairFieldProvided : Bool)
    (pairFieldName : String) (epicTitles : String → Option String)
    (mi : MultisprintIssue) : List Char :=
  joinCh '\t' ((buildRow dateFmt pairFieldProvided pairFieldName epicTitles mi).map String.data)

/-- The data portion of the written output: one line per row, each
terminated by a newline. -/
def dataChars (dateFmt : String → Option String) (pairFieldProvided : Bool)
    (pairFieldName : String) (epicTitles : String → Option String)
    (rows : List MultisprintIssue) : List Char :=
  (rows.map (fun mi => rowChars dateFmt pairFieldProvided pairFieldName epicTitles mi ++ ['\n'])).flatten

/-- Filename normalisation from the source: add the `.tsv` suffix when
absent (`strings.HasSuffix`, at character level). -/
def normalizeFilename (filename : String) : String :=
  if ".tsv".data.isSuffixOf filename.data then filename else filename ++ ".tsv"

/-- The count of rows whose configured pair field resolved to a
non-blank value, which `writeOutputFile` returns to its caller. -/
def pairFieldFoundCount (dateFmt : String → Option String) (pairFieldProvided : Bool)
    (pairFieldName : String) (rows : List MultisprintIssue) : Nat :=
  (rows.filter (fun mi =>
    pairFieldProvided && !(pairFieldName == "")
      && !((extractFieldValues dateFmt pairFieldProvided pairFieldName mi.issue).pair.trim == ""))).length

/-- `writeOutputFile` from the source.  The file system is the oracle
`fs` mapping a path to its current content, when the path exists.  In
append mode the header is written exactly when the (normalised) path
does not exist, and the new content extends the existing bytes; in
overwrite mode the file starts fresh with a header.  The returned pair
is the final content of the output path and the pair-found count. -/
def writeOutputFile (fs : String → Option (List Char))
    (dateFmt : String → Option String) (pairFieldProvided : Bool)
    (pairFieldName : String) (filename : String)
    (multisprintIssues : List MultisprintIssue)
    (epicTitles : String → Option String) (appendMode : Bool) : List Char × Nat :=
  let fname := normalizeFilename filename
  let writeHeader := if appendMode then (fs fname).isNone else true
  let base := if appendMode then (fs fname).getD [] else []
  let headerPart := if writeHeader then headerChars ++ ['\n'] else []
  (base ++ headerPart
     ++ dataChars dateFmt pairFieldProvided pairFieldName epicTitles multisprintIssues,
   pairFieldFoundCount dateFmt pairFieldProvided pairFieldName multisprintIssues)

/-! ## Claim C2 -/

/-- Claim C2: the header rule is a pure existence check on the
(normalised) output path.  In append mode an existing path — even one
holding a zero-byte file — receives no header, the new content
extending the existing bytes with data lines only; a missing path, or
overwrite mode, yields exactly one header line before the first data
line, so appending to an existing non-empty file never duplicates the
header. -/
theorem C2_header_existence_rule (fs : String → Option (List Char))
    (dateFmt : String → Option String) (pairP : Bool) (pairN : String)
    (filename : String) (rows : List MultisprintIssue)
    (epicTitles : String → Option String) :
    (∀ c, fs (normalizeFilename filename) = some c →
      (writeOutputFile fs dateFmt pairP pairN filename rows epicTitles true).1
        = c ++ dataChars dateFmt pairP pairN epicTitles rows) ∧
    (fs (normalizeFilename filename) = none →
      (writeOutputFile fs dateFmt pairP pairN filename rows epicTitles true).1
        = headerChars ++ '\n' :: dataChars dateFmt pairP pairN epicTitles rows) ∧
    (writeOutputFile fs dateFmt pairP pairN filename rows epicTitles false).1
      = headerChars ++ '\n' :: dataChars dateFmt pairP pairN epicTitles rows := by
  refine ⟨?_, ?_, ?_⟩
  · intro c hc
    simp [writeOutputFile, hc]
  · intro hc
    simp [writeOutputFile, hc]
  · simp [writeOutputFile]

/-- Witness for C2: appending when the output path holds a (non-empty)
file writes no header row. -/
theorem C2_header_existence_rule_witness :
    (writeOutputFile (fun p => if p = "out.tsv" then some ['x'] else none)
      (fun _ => none) false "" "out" [] (fun _ => none) true).1
      = ['x'] ++ dataChars (fun _ => none) false "" (fun _ => none) [] :=
  (C2_header_existence_rule (fun p => if p = "out.tsv" then some ['x'] else none)
      (fun _ => none) false "" "out" [] (fun _ => none)).1 ['x'] (by decide)

/-! ## Claim C4 -/

/-- Baseline issue fields for concrete evaluations. -/
def sampleFields : IssueFields :=
  { issueType := ⟨"Story"⟩
    status := ⟨"Done"⟩
    summary := "s"
    updated := none
    created := none
    resolutionDate := none
    assignee := none
    creator := none
    project := ⟨"PK", "ProjName"⟩
    fixVersions := []
    components := []
    labels := []
    resolution := none
    storyPoints := none
    sprintField := GoVal.null
    epicLinkField := GoVal.null
    additionalFields := [] }

/-- An issue with distinct components, labels and story points, to pin
down column positions. -/
def issueColumns : Issue :=
  ⟨"KEY-2", { sampleFields with
    components := [⟨"comp"⟩], labels := ["lbl"], storyPoints := some "5" }⟩

/-- A row over `issueColumns`. -/
def miColumns : MultisprintIssue :=
  ⟨issueColumns, 2, "No Epic", none, parseSprintField GoVal.null⟩

/-- Counterexample for C4: at a concrete row, the column right after
the components column (position 13 of 22, zero-based index 12) holds
the story points, not the labels as the claim places them; the labels
sit at index 15, after the epic title. -/
theorem C4_column_order_counterexample :
    (buildRow (fun _ => none) false "" (fun _ => none) miColumns).get? 11 = some "comp" ∧
    (buildRow (fun _ => none) false "" (fun _ => none) miColumns).get? 12 = some "5" ∧
    (buildRow (fun _ => none) false "" (fun _ => none) miColumns).get? 12 ≠ some "lbl" ∧
    (buildRow (fun _ => none) false "" (fun _ => none) miColumns).get? 15 = some "lbl" := by
  refine ⟨rfl, rfl, ?_, rfl⟩
  decide

/-- Claim C4 amended: every data row has its fields in the writer's
fixed column order, which matches the 22-column header of the output
file: after fix versions and components come story points, epic link,
epic summary, then labels, resolution, reporter, then the sprint
columns — the labels column sits between the epic-summary column and
the resolution column, not between components and story points. -/
theorem C4_column_order_amended (dateFmt : String → Option String)
    (pairP : Bool) (pairN : String) (epicTitles : String → Option String)
    (mi : MultisprintIssue) :
    (buildRow dateFmt pairP pairN epicTitles mi).length = 22 ∧
    headerFields.length = 22 ∧
    (buildRow dateFmt pairP pairN epicTitles mi).get? 10
      = some (extractFieldValues dateFmt pairP pairN mi.issue).fixVersions ∧
    headerFields.get? 10 = some "Fix Versions" ∧
    (buildRow dateFmt pairP pairN epicTitles mi).get? 11
      = some (extractFieldValues dateFmt pairP pairN mi.issue).components ∧
    headerFields.get? 11 = some "Components" ∧
    (buildRow dateFmt pairP pairN epicTitles mi).get? 12
      = some (extractFieldValues dateFmt pairP pairN mi.issue).storyPoints ∧
    headerFields.get? 12 = some "Story Points" ∧
    (buildRow dateFmt pairP pairN epicTitles mi).get? 13 = some mi.epicLink ∧
    headerFields.get? 13 = some "Epic Link" ∧
    (buildRow dateFmt pairP pairN epicTitles mi).get? 14
      = some (if ((epicTitles mi.epicLink).getD "") = "" then "No Epic Summary"
              else (epicTitles mi.epicLink).getD "") ∧
    headerFields.get? 14 = some "Epic Summary" ∧
    (buildRow dateFmt pairP pairN epicTitles mi).get? 15
      = some (extractFieldValues dateFmt pairP pairN mi.issue).labels ∧
    headerFields.get? 15 = some "Labels" ∧
    (buildRow dateFmt pairP pairN epicTitles mi).get? 16
      = some (extractFieldValues dateFmt pairP pairN mi.issue).resolution ∧
    headerFields.get? 16 = some "Resolution" ∧
    (buildRow dateFmt pairP pairN epicTitles mi).get? 17
      = some (extractFieldValues dateFmt pairP pairN mi.issue).reporter ∧
    headerFields.get? 17 = some "Reporter" ∧
    (buildRow dateFmt pairP pairN epicTitles mi).get? 18
      = some (toString mi.sprintInfo.SprintCount) ∧
    (buildRow dateFmt pairP pairN epicTitles mi).get? 19 = some mi.sprintInfo.FirstSprint ∧
    (buildRow dateFmt pairP pairN epicTitles mi).get? 20 = some mi.sprintInfo.LastSprint ∧
    (buildRow dateFmt pairP pairN epicTitles mi).get? 21 = some mi.sprintInfo.AllSprints := by
  exact ⟨rfl, rfl, rfl, rfl, rfl, rfl, rfl, rfl, rfl, rfl, rfl, rfl, rfl, rfl, rfl,
    rfl, rfl, rfl, rfl, rfl, rfl, rfl⟩

/-! ## Claim C8 -/

/-- Claim C8: pair-field interpretation.  With no configured field name
the literal text `Pair` is written for every row; with a configured
name the raw value goes through the four-step cascade in which the
first successful interpretation wins, values are joined by a comma and
a space, and the empty string results when no step succeeds.  The two
spec examples are included: a string array joins to the comma-joined
names, an empty object yields the empty string. -/
theorem C8_pair_field_interpretation :
    (∀ dateFmt pairN issue,
      (extractFieldValues dateFmt false pairN issue).pair = "Pair") ∧
    (∀ dateFmt (pairN : String) issue raw, pairN ≠ "" →
      lookupJson issue.fields.additionalFields pairN = some raw →
      (extractFieldValues dateFmt true pairN issue).pair = pairRawValue raw) ∧
    (∀ raw x xs, decodePairMembers raw = some (x :: xs) →
      pairRawValue raw = String.intercalate ", " (x :: xs)) ∧
    (∀ raw s, (decodePairMembers raw = none ∨ decodePairMembers raw = some []) →
      decodePairMember raw = some s → s ≠ "" → pairRawValue raw = s) ∧
    (∀ raw x xs, (decodePairMembers raw = none ∨ decodePairMembers raw = some []) →
      (decodePairMember raw = none ∨ decodePairMember raw = some "") →
      decodeStringList raw = some (x :: xs) →
      pairRawValue raw = String.intercalate ", " (x :: xs)) ∧
    (∀ raw s, (decodePairMembers raw = none ∨ decodePairMembers raw = some []) →
      (decodePairMember raw = none ∨ decodePairMember raw = some "") →
      (decodeStringList raw = none ∨ decodeStringList raw = some []) →
      decodeStringElem raw = some s → s ≠ "" → pairRawValue raw = s) ∧
    (∀ raw, (decodePairMembers raw = none ∨ decodePairMembers raw = some []) →
      (decodePairMember raw = none ∨ decodePairMember raw = some "") →
      (decodeStringList raw = none ∨ decodeStringList raw = some []) →
      (decodeStringElem raw = none ∨ decodeStringElem raw = some "") →
      pairRawValue raw = "") ∧
    pairRawValue (Json.arr [Json.str "Alice", Json.str "Bob"]) = "Alice, Bob" ∧
    pairRawValue (Json.obj []) = "" := by
  refine ⟨?_, ?_, ?_, ?_, ?_, ?_, ?_, by decide, rfl⟩
  · intro dateFmt pairN issue
    rfl
  · intro dateFmt pairN issue raw h hlook
    have hb : (pairN == "") = false := beq_eq_false_iff_ne.mpr h
    simp [extractFieldValues, hb, hlook]
  · intro raw x xs h
    simp [pairRawValue, h]
  · intro raw s h1 h2 h3
    rcases h1 with h1 | h1 <;>
      simp [pairRawValue, pairAttemptSingleObject, h1, h2, h3]
  · intro raw x xs h1 h2 h3
    rcases h1 with h1 | h1 <;> rcases h2 with h2 | h2 <;>
      simp [pairRawValue, pairAttemptSingleObject, pairAttemptStringArray, h1, h2, h3]
  · intro raw s h1 h2 h3 h4 h5
    rcases h1 with h1 | h1 <;> rcases h2 with h2 | h2 <;> rcases h3 with h3 | h3 <;>
      simp [pairRawValue, pairAttemptSingleObject, pairAttemptStringArray,
        pairAttemptString, h1, h2, h3, h4, h5]
  · intro raw h1 h2 h3 h4
    rcases h1 with h1 | h1 <;> rcases h2 with h2 | h2 <;> rcases h3 with h3 | h3 <;>
      rcases h4 with h4 | h4 <;>
      simp [pairRawValue, pairAttemptSingleObject, pairAttemptStringArray,
        pairAttemptString, h1, h2, h3, h4]

/-- An issue carrying a configured pair custom field holding a string
array. -/
def issuePair : Issue :=
  ⟨"KEY-3", { sampleFields with
    additionalFields :=
      [("customfield_10186", Json.arr [Json.str "Alice", Json.str "Bob"])] }⟩

/-- Witness for C8: the configured-field clause discharged at a
concrete issue whose pair field holds a string array. -/
theorem C8_pair_field_interpretation_witness :
    (extractFieldValues (fun _ => none) true "customfield_10186" issuePair).pair
      = pairRawValue (Json.arr [Json.str "Alice", Json.str "Bob"]) :=
  C8_pair_field_interpretation.2.1 (fun _ => none) "customfield_10186" issuePair
    (Json.arr [Json.str "Alice", Json.str "Bob"]) (by decide) rfl

/-! ## Issue pipeline: per-issue processing -/

/-- `int(time.Since(resolvedTime).Hours() / 24)` from the source: the
whole number of days between the run time and the resolved time,
truncated toward zero, with times in seconds since an epoch.
Floating-point rounding of the source at exact day boundaries is
abstracted to exact integer truncation. -/
def daysSinceResolved (now resolvedTime : Int) : Int :=
  (now - resolvedTime).tdiv 86400

/-- The resolved-too-long-ago test of the main processing loop: an
issue is skipped exactly when it carries a resolution timestamp, the
timestamp parses as RFC3339 (oracle `parseR`), and the day count since
then exceeds the window. -/
def resolvedTooOld (parseR : String → Option Int) (now daysPrior : Int)
    (issue : Issue) : Bool :=
  match issue.fields.resolutionDate with
  | some s =>
    match parseR s with
    | some resolvedTime => decide (daysPrior < daysSinceResolved now resolvedTime)
    | none => false
  | none => false

/-- One iteration of the main processing loop: skip when resolved too
long ago, parse the sprint history, keep multi-sprint issues, and grow
the insertion-ordered epic key set. -/
def processOne (parseR : String → Option Int) (now daysPrior : Int)
    (st : List MultisprintIssue × List String) (issue : Issue) :
    List MultisprintIssue × List String :=
  if resolvedTooOld parseR now daysPrior issue then st
  else
    let sprintInfo := parseSprintField issue.fields.sprintField
    if 1 < sprintInfo.SprintCount then
      let epicLink := getEpicLink issue.fields.epicLinkField
      let mi : MultisprintIssue :=
        { issue := issue
          workedSprints := sprintInfo.SprintCount
          epicLink := epicLink
          resolvedDate := issue.fields.resolutionDate.bind parseR
          sprintInfo := sprintInfo }
      let epicKeys :=
        if epicLink ≠ "No Epic" ∧ epicLink ∉ st.2 then st.2 ++ [epicLink] else st.2
      (st.1 ++ [mi], epicKeys)
    else st

/-- The per-issue filtering/classification phase of `main`: rows in
fetch order plus the insertion-ordered deduplicated epic key list. -/
def processIssues (parseR : String → Option Int) (now daysPrior : Int)
    (issues : List Issue) : List MultisprintIssue × List String :=
  issues.foldl (processOne parseR now daysPrior) ([], [])

/-- Any row produced by one processing step either was already present
or stems from the processed issue, which then passed the
resolved-too-old test. -/
theorem mem_processOne (parseR : String → Option Int) (now daysPrior : Int)
    (st : List MultisprintIssue × List String) (a : Issue) (mi : MultisprintIssue)
    (h : mi ∈ (processOne parseR now daysPrior st a).1) :
    mi ∈ st.1 ∨ (mi.issue = a ∧ resolvedTooOld parseR now daysPrior a = false) := by
  unfold processOne at h
  cases hro : resolvedTooOld parseR now daysPrior a with
  | true => rw [hro, if_pos rfl] at h; exact Or.inl h
  | false =>
    rw [hro] at h
    simp only [Bool.false_eq_true, if_false] at h
    by_cases hc : 1 < (parseSprintField a.fields.sprintField).SprintCount
    · rw [if_pos hc] at h
      rcases List.mem_append.mp h with h2 | h2
      · exact Or.inl h2
      · refine Or.inr ⟨?_, rfl⟩
        rw [List.mem_singleton.mp h2]
    · rw [if_neg hc] at h
      exact Or.inl h

theorem mem_processIssues_foldl (parseR : String → Option Int) (now daysPrior : Int)
    (issues : List Issue) :
    ∀ (st : List MultisprintIssue × List String) (mi : MultisprintIssue),
      mi ∈ (issues.foldl (processOne parseR now daysPrior) st).1 →
      mi ∈ st.1 ∨ resolvedTooOld parseR now daysPrior mi.issue = false := by
  induction issues with
  | nil => intro st mi h; exact Or.inl h
  | cons a issues ih =>
    intro st mi h
    rcases ih (processOne parseR now daysPrior st a) mi h with h2 | h2
    · rcases mem_processOne parseR now daysPrior st a mi h2 with h3 | h3
      · exact Or.inl h3
      · exact Or.inr (h3.1 ▸ h3.2)
    · exact Or.inr h2

/-! ## Claim C5 -/

/-- Claim C5: every emitted row stems from an issue that passed the
resolved-too-long-ago exclusion — an issue whose resolution timestamp
parses and lies further back than the day-count window never reaches
the result set, whatever the fetch-time filter (which the processing
loop never consults) admitted. -/
theorem C5_resolved_too_old_excluded (parseR : String → Option Int)
    (now daysPrior : Int) (issues : List Issue) (mi : MultisprintIssue)
    (hmi : mi ∈ (processIssues parseR now daysPrior issues).1) :
    resolvedTooOld parseR now daysPrior mi.issue = false ∧
    (∀ s resolvedTime, mi.issue.fields.resolutionDate = some s →
      parseR s = some resolvedTime →
      daysSinceResolved now resolvedTime ≤ daysPrior) := by
  have hro : resolvedTooOld parseR now daysPrior mi.issue = false := by
    rcases mem_processIssues_foldl parseR now daysPrior issues ([], []) mi hmi with h | h
    · exact absurd h (List.not_mem_nil mi)
    · exact h
  refine ⟨hro, ?_⟩
  intro s resolvedTime hs hp
  simp only [resolvedTooOld, hs, hp, decide_eq_false_iff_not, not_lt] at hro
  exact hro

/-- An issue recently resolved (per the parse oracle) carrying two
sprints. -/
def issueRecent : Issue :=
  ⟨"KEY-4", { sampleFields with
    resolutionDate := some "2025-01-01"
    sprintField := GoVal.list [GoVal.map [("name", GoVal.str "S1")],
                               GoVal.map [("name", GoVal.str "S2")]] }⟩

/-- A parse oracle recognising only the timestamp of `issueRecent`. -/
def parseRecent : String → Option Int :=
  fun s => if s = "2025-01-01" then some 100 else none

/-- The row the pipeline builds for `issueRecent`. -/
def miRecent : MultisprintIssue :=
  { issue := issueRecent
    workedSprints := (parseSprintField issueRecent.fields.sprintField).SprintCount
    epicLink := getEpicLink issueRecent.fields.epicLinkField
    resolvedDate := issueRecent.fields.resolutionDate.bind parseRecent
    sprintInfo := parseSprintField issueRecent.fields.sprintField }

/-- Witness for C5: a concrete emitted row indeed passed the
resolved-too-old test. -/
theorem C5_resolved_too_old_excluded_witness :
    resolvedTooOld parseRecent 100 10 miRecent.issue = false :=
  (C5_resolved_too_old_excluded parseRecent 100 10 [issueRecent] miRecent
    (by rw [show (processIssues parseRecent 100 10 [issueRecent]).1 = [miRecent] from rfl]
        exact List.mem_singleton_self miRecent)).1

/-! ## Claim C10 -/

/-- Claim C10: an issue whose resolution-date string is present but
does not parse as RFC3339 silently bypasses the resolved-too-long-ago
exclusion: it proceeds to sprint parsing and is included exactly when
its sprint count exceeds one — regardless of how long ago it was
resolved — with a null stored resolved time. -/
theorem C10_unparseable_resolution_bypass (parseR : String → Option Int)
    (now daysPrior : Int) (issue : Issue) (s : String)
    (hres : issue.fields.resolutionDate = some s) (hparse : parseR s = none) :
    (processIssues parseR now daysPrior [issue]).1
      = (if 1 < (parseSprintField issue.fields.sprintField).SprintCount
         then [{ issue := issue
                 workedSprints := (parseSprintField issue.fields.sprintField).SprintCount
                 epicLink := getEpicLink issue.fields.epicLinkField
                 resolvedDate := none
                 sprintInfo := parseSprintField issue.fields.sprintField }]
         else []) := by
  have hro : resolvedTooOld parseR now daysPrior issue = false := by
    simp [resolvedTooOld, hres, hparse]
  have hrd : issue.fields.resolutionDate.bind parseR = none := by
    rw [hres]
    simpa using hparse
  simp only [processIssues, List.foldl_cons, List.foldl_nil, processOne, hro,
    Bool.false_eq_true, if_false]
  by_cases hc : 1 < (parseSprintField issue.fields.sprintField).SprintCount
  · rw [if_pos hc, if_pos hc]
    simp [hrd]
  · rw [if_neg hc, if_neg hc]

/-- An issue with an unparseable resolution timestamp and two
sprints. -/
def issueStale : Issue :=
  ⟨"KEY-5", { sampleFields with
    resolutionDate := some "garbage"
    sprintField := GoVal.list [GoVal.map [("name", GoVal.str "S1")],
                               GoVal.map [("name", GoVal.str "S2")]] }⟩

/-- Witness for C10: the bypass at a concrete unparseable timestamp. -/
theorem C10_unparseable_resolution_bypass_witness :
    (processIssues (fun _ => none) 0 10 [issueStale]).1
      = (if 1 < (parseSprintField issueStale.fields.sprintField).SprintCount
         then [{ issue := issueStale
                 workedSprints := (parseSprintField issueStale.fields.sprintField).SprintCount
                 epicLink := getEpicLink issueStale.fields.epicLinkField
                 resolvedDate := none
                 sprintInfo := parseSprintField issueStale.fields.sprintField }]
         else []) :=
  C10_unparseable_resolution_bypass (fun _ => none) 0 10 issueStale "garbage" rfl rfl

/-! ## Paginated fetch -/

/-- The pagination loop of `fetchAllJiraIssues`, with explicit fuel
(the source loop is unbounded).  The search endpoint is the oracle
`server`; a transport failure, a non-200 status or a JSON decode
failure each surface as an error value and return immediately.  The
accumulated issues and the trace of issued requests are threaded
through; each request carries the same JQL and field list, the current
offset, and the fixed page size. -/
def fetchAllGo (server : SearchRequest → Except String SearchResponse)
    (jqlQuery fields : String) :
    Nat → Nat → List Issue → List SearchRequest →
    Except String (List Issue × List SearchRequest)
  | 0, _, _, _ => Except.error "out of fuel"
  | fuel + 1, startAt, allIssues, reqs =>
    let req : SearchRequest := ⟨jqlQuery, fields, startAt, batchSize⟩
    match server req with
    | .error e => .error e
    | .ok searchResponse =>
      let allIssues2 := allIssues ++ searchResponse.issues
      let reqs2 := reqs ++ [req]
      if searchResponse.total ≤ startAt + batchSize then .ok (allIssues2, reqs2)
      else fetchAllGo server jqlQuery fields fuel (startAt + batchSize) allIssues2 reqs2

/-- `fetchAllJiraIssues` from the source: page from offset zero until
the reported total is covered. -/
def fetchAllJiraIssues (server : SearchRequest → Except String SearchResponse)
    (jqlQuery fields : String) (fuel : Nat) :
    Except String (List Issue × List SearchRequest) :=
  fetchAllGo server jqlQuery fields fuel 0 [] []

/-- An honest search endpoint for a master list `L`: every request with
the given filter and field list is answered with the page of `L` at the
requested offset, the constant total, and the echoed parameters. -/
def honestServer (L : List Issue) (jqlQuery fields : String)
    (server : SearchRequest → Except String SearchResponse) : Prop :=
  ∀ startAt maxResults,
    server ⟨jqlQuery, fields, startAt, maxResults⟩
      = .ok ⟨(L.drop startAt).take maxResults, L.length, startAt, maxResults⟩

/-- The offsets the pagination loop visits, from a given start. -/
def pageOffsets (total : Nat) : Nat → Nat → List Nat
  | 0, _ => []
  | fuel + 1, startAt =>
    if total ≤ startAt + batchSize then [startAt]
    else startAt :: pageOffsets total fuel (startAt + batchSize)

theorem fetchAllGo_honest (L : List Issue) (jqlQuery fields : String)
    (server : SearchRequest → Except String SearchResponse)
    (hs : honestServer L jqlQuery fields server) :
    ∀ (fuel startAt : Nat) (acc : List Issue) (reqs : List SearchRequest),
      L.length ≤ startAt + batchSize * fuel → 0 < fuel →
      fetchAllGo server jqlQuery fields fuel startAt acc reqs
        = .ok (acc ++ L.drop startAt,
               reqs ++ (pageOffsets L.length fuel startAt).map
                 (fun o => ⟨jqlQuery, fields, o, batchSize⟩)) := by
  intro fuel
  induction fuel with
  | zero => intro startAt acc reqs _ hpos; exact absurd hpos (lt_irrefl 0)
  | succ f ih =>
    intro startAt acc reqs hlen _
    have hexp : batchSize * (f + 1) = batchSize * f + batchSize := by ring
    simp only [fetchAllGo, hs startAt batchSize]
    by_cases hdone : L.length ≤ startAt + batchSize
    · rw [if_pos hdone]
      have htake : (L.drop startAt).take batchSize = L.drop startAt := by
        apply List.take_of_length_le
        rw [List.length_drop]
        omega
      rw [htake]
      simp only [pageOffsets]
      rw [if_pos hdone]
      rfl
    · rw [if_neg hdone]
      have hf : 0 < f := by
        rcases Nat.eq_zero_or_pos f with h0 | h0
        · subst h0
          omega
        · exact h0
      rw [ih (startAt + batchSize) _ _ (by omega) hf]
      simp only [pageOffsets]
      rw [if_neg hdone]
      have hsplit : acc ++ (L.drop startAt).take batchSize ++ L.drop (startAt + batchSize)
          = acc ++ L.drop startAt := by
        rw [List.append_assoc]
        congr 1
        rw [← List.drop_drop, List.take_append_drop]
      rw [hsplit]
      simp

/-- The visited offsets are an arithmetic progression with step
`batchSize`. -/
theorem pageOffsets_progression (total : Nat) :
    ∀ (fuel m : Nat), total ≤ batchSize * m + batchSize * fuel → 0 < fuel →
      ∃ k, 0 < k ∧ pageOffsets total fuel (batchSize * m)
        = (List.range' m k).map (fun i => batchSize * i) := by
  intro fuel
  induction fuel with
  | zero => intro m _ hpos; exact absurd hpos (lt_irrefl 0)
  | succ f ih =>
    intro m hlen _
    have hexp : batchSize * (f + 1) = batchSize * f + batchSize := by ring
    have hexp2 : batchSize * (m + 1) = batchSize * m + batchSize := by ring
    by_cases hdone : total ≤ batchSize * m + batchSize
    · refine ⟨1, Nat.one_pos, ?_⟩
      simp only [pageOffsets]
      rw [if_pos hdone]
      rfl
    · have hf : 0 < f := by
        rcases Nat.eq_zero_or_pos f with h0 | h0
        · subst h0
          omega
        · exact h0
      obtain ⟨k, hk, hoff⟩ := ih (m + 1) (by omega) hf
      refine ⟨k + 1, Nat.succ_pos k, ?_⟩
      simp only [pageOffsets]
      rw [if_neg hdone]
      rw [show batchSize * m + batchSize = batchSize * (m + 1) by ring, hoff]
      rw [List.range'_succ]
      rfl

/-! ## Claim C3 -/

/-- Claim C3: against an honest search endpoint, the pipeline requests
fixed-size pages of 100 at offsets 0, 100, 200, … (each request
carrying the same filter and field-selection list and the page size),
keeps paging until the cumulative count covers the reported total, and
returns the concatenation of the pages in fetch order — the complete
reported match list. -/
theorem C3_pagination_complete (L : List Issue) (jqlQuery fields : String)
    (server : SearchRequest → Except String SearchResponse)
    (hs : honestServer L jqlQuery fields server)
    (fuel : Nat) (hfuel : L.length ≤ batchSize * fuel) (hpos : 0 < fuel) :
    ∃ k, 0 < k ∧
      fetchAllJiraIssues server jqlQuery fields fuel
        = .ok (L, (List.range k).map
            (fun i => ⟨jqlQuery, fields, batchSize * i, batchSize⟩)) := by
  obtain ⟨k, hk, hoff⟩ := pageOffsets_progression L.length fuel 0
    (by simpa using hfuel) hpos
  refine ⟨k, hk, ?_⟩
  rw [fetchAllJiraIssues,
    fetchAllGo_honest L jqlQuery fields server hs fuel 0 [] [] (by simpa using hfuel) hpos]
  rw [show batchSize * 0 = 0 from Nat.mul_zero batchSize] at hoff
  rw [hoff]
  rw [← List.range_eq_range', List.map_map]
  simp [Function.comp]

/-- A one-issue master list and its honest endpoint. -/
def issueListOne : List Issue := [⟨"KEY-6", sampleFields⟩]

/-- The honest endpoint over `issueListOne`. -/
def serverOne : SearchRequest → Except String SearchResponse :=
  fun req => .ok ⟨(issueListOne.drop req.startAt).take req.maxResults,
    issueListOne.length, req.startAt, req.maxResults⟩

/-- Witness for C3: the honest one-issue endpoint is drained in one
page at offset zero. -/
theorem C3_pagination_complete_witness :
    ∃ k, 0 < k ∧
      fetchAllJiraIssues serverOne "jql" "fieldList" 1
        = .ok (issueListOne, (List.range k).map
            (fun i => ⟨"jql", "fieldList", batchSize * i, batchSize⟩)) :=
  C3_pagination_complete issueListOne "jql" "fieldList" serverOne
    (fun _ _ => rfl) 1 (by decide) Nat.one_pos

/-! ## Main composition and claim C7 -/

/-- Outcome of one epic lookup is irrelevant here; this is the
fetch-process-write composition of `main`: a fetch error aborts with no
output (the source logs the error and exits before any write); an empty
issue list also ends the run before any write; otherwise the result
set is processed, epic titles are resolved, and the output file is
written. -/
def runPipeline (server : SearchRequest → Except String SearchResponse)
    (jqlQuery fields : String) (fuel : Nat)
    (parseR : String → Option Int) (now daysPrior : Int)
    (lookup : String → EpicLookupOutcome)
    (fs : String → Option (List Char)) (dateFmt : String → Option String)
    (pairFieldProvided : Bool) (pairFieldName : String)
    (outputFile : String) (appendMode : Bool) : Option (List Char × Nat) :=
  match fetchAllJiraIssues server jqlQuery fields fuel with
  | .error _ => none
  | .ok (issues, _) =>
    if issues.isEmpty then none
    else
      let st := processIssues parseR now daysPrior issues
      let epicTitles := fetchEpicTitles lookup st.2
      some (writeOutputFile fs dateFmt pairFieldProvided pairFieldName outputFile
              st.1 epicTitles appendMode)

theorem fetchAllGo_error_propagates
    (server : SearchRequest → Except String SearchResponse)
    (jqlQuery fields : String) (T : Nat) (e : String) :
    ∀ (k fuel m : Nat) (acc : List Issue) (reqs : List SearchRequest),
      (∀ j, j < k → ∃ r, server ⟨jqlQuery, fields, batchSize * (m + j), batchSize⟩
          = .ok r ∧ r.total = T) →
      server ⟨jqlQuery, fields, batchSize * (m + k), batchSize⟩ = .error e →
      batchSize * (m + k) < T → k < fuel →
      fetchAllGo server jqlQuery fields fuel (batchSize * m) acc reqs = .error e := by
  intro k
  induction k with
  | zero =>
    intro fuel m acc reqs _ herr _ hf
    obtain ⟨f, rfl⟩ : ∃ f, fuel = f + 1 :=
      ⟨fuel - 1, (Nat.succ_pred_eq_of_pos hf).symm⟩
    rw [show batchSize * (m + 0) = batchSize * m from by ring] at herr
    simp only [fetchAllGo, herr]
  | succ k ih =>
    intro fuel m acc reqs hok herr hT hf
    obtain ⟨f, rfl⟩ : ∃ f, fuel = f + 1 :=
      ⟨fuel - 1, (Nat.succ_pred_eq_of_pos (Nat.lt_of_le_of_lt (Nat.zero_le _) hf)).symm⟩
    obtain ⟨r, hr, hrT⟩ := hok 0 (Nat.succ_pos k)
    rw [show batchSize * (m + 0) = batchSize * m from by ring] at hr
    simp only [fetchAllGo, hr]
    have hcont : ¬ (r.total ≤ batchSize * m + batchSize) := by
      rw [hrT]
      have hle : batchSize * (m + 1) ≤ batchSize * (m + (k + 1)) :=
        Nat.mul_le_mul_left batchSize (by omega)
      have h2 : batchSize * (m + 1) < T := lt_of_le_of_lt hle hT
      have hexp : batchSize * (m + 1) = batchSize * m + batchSize := by ring
      omega
    rw [if_neg hcont]
    rw [show batchSize * m + batchSize = batchSize * (m + 1) from by ring]
    apply ih f (m + 1)
    · intro j hj
      have := hok (j + 1) (by omega)
      rw [show m + (j + 1) = m + 1 + j from by ring] at this
      exact this
    · rw [show m + 1 + k = m + (k + 1) from by ring]
      exact herr
    · rw [show m + 1 + k = m + (k + 1) from by ring]
      exact hT
    · omega

/-- Claim C7: any transport or decode failure on any requested page
aborts the whole pipeline: the fetch returns an error — `Except`
carries no partial issue list — and the run writes no output file.
The second clause shows the propagation: after any number of honest
pages that still leave the total uncovered, a failing page makes the
whole fetch fail with that error. -/
theorem C7_pagination_failure_aborts :
    (∀ (server : SearchRequest → Except String SearchResponse)
        (jqlQuery fields : String) (fuel : Nat)
        (parseR : String → Option Int) (now daysPrior : Int)
        (lookup : String → EpicLookupOutcome)
        (fs : String → Option (List Char)) (dateFmt : String → Option String)
        (pairP : Bool) (pairN outputFile : String) (appendMode : Bool) (e : String),
      fetchAllJiraIssues server jqlQuery fields fuel = .error e →
      runPipeline server jqlQuery fields fuel parseR now daysPrior lookup fs dateFmt
        pairP pairN outputFile appendMode = none) ∧
    (∀ (server : SearchRequest → Except String SearchResponse)
        (jqlQuery fields : String) (T k : Nat) (e : String) (fuel : Nat),
      (∀ j, j < k → ∃ r, server ⟨jqlQuery, fields, batchSize * j, batchSize⟩
          = .ok r ∧ r.total = T) →
      server ⟨jqlQuery, fields, batchSize * k, batchSize⟩ = .error e →
      batchSize * k < T → k < fuel →
      fetchAllJiraIssues server jqlQuery fields fuel = .error e) := by
  constructor
  · intro server jqlQuery fields fuel parseR now daysPrior lookup fs dateFmt
      pairP pairN outputFile appendMode e h
    rw [runPipeline, h]
  · intro server jqlQuery fields T k e fuel hok herr hT hf
    have := fetchAllGo_error_propagates server jqlQuery fields T e k fuel 0 [] []
      (by simpa using hok) (by simpa using herr) (by simpa using hT) hf
    simpa [fetchAllJiraIssues] using this

/-- Witness for C7: a server failing on the first page yields an
aborted run with no output. -/
theorem C7_pagination_failure_aborts_witness :
    runPipeline (fun _ => .error "boom") "jql" "fieldList" 1 (fun _ => none) 0 0
      (fun _ => EpicLookupOutcome.transportError) (fun _ => none) (fun _ => none)
      false "" "out" false = none :=
  C7_pagination_failure_aborts.1 (fun _ => .error "boom") "jql" "fieldList" 1
    (fun _ => none) 0 0 (fun _ => EpicLookupOutcome.transportError)
    (fun _ => none) (fun _ => none) false "" "out" false "boom" rfl

/-! ## Round trip: claim C9 -/

/-- Split a character list at every occurrence of `sep` — the reader
side of the round-trip property (splitting a line on the tab
character, or content on newlines). -/
def splitCh (sep : Char) : List Char → List (List Char)
  | [] => [[]]
  | c :: cs =>
    let rest := splitCh sep cs
    if c = sep then [] :: rest
    else (c :: rest.headD []) :: rest.tail

theorem splitCh_ne_nil (sep : Char) (l : List Char) : splitCh sep l ≠ [] := by
  cases l with
  | nil => simp [splitCh]
  | cons c cs => by_cases h : c = sep <;> simp [splitCh, h]

theorem splitCh_append_of_not_mem (sep : Char) (f : List Char) (cs : List Char)
    (hf : sep ∉ f) :
    splitCh sep (f ++ cs)
      = (f ++ (splitCh sep cs).headD []) :: (splitCh sep cs).tail := by
  induction f with
  | nil =>
    rcases hne : splitCh sep cs with _ | ⟨h0, t⟩
    · exact absurd hne (splitCh_ne_nil sep cs)
    · simp [hne]
  | cons c f ih =>
    have hc : c ≠ sep := fun h => hf (h ▸ List.mem_cons_self c f)
    have hfm : sep ∉ f := fun h => hf (List.mem_cons_of_mem c h)
    simp only [List.cons_append, splitCh, List.append_eq, if_neg hc]
    rw [ih hfm]
    simp

/-- Separator join, inverse side (`strings.Join`). -/
theorem joinCh_cons (sep : Char) (f : List Char) (fs : List (List Char)) (h : fs ≠ []) :
    joinCh sep (f :: fs) = f ++ sep :: joinCh sep fs := by
  cases fs with
  | nil => exact absurd rfl h
  | cons g fs2 => rfl

theorem splitCh_joinCh (sep : Char) :
    ∀ fs : List (List Char), fs ≠ [] → (∀ f ∈ fs, sep ∉ f) →
      splitCh sep (joinCh sep fs) = fs := by
  intro fs
  induction fs with
  | nil => intro h _; exact absurd rfl h
  | cons f fs ih =>
    intro _ hmem
    have hf : sep ∉ f := hmem f (List.mem_cons_self f fs)
    cases fs with
    | nil =>
      show splitCh sep (joinCh sep [f]) = [f]
      have happ := splitCh_append_of_not_mem sep f [] hf
      simpa [joinCh, splitCh] using happ
    | cons g fs2 =>
      rw [joinCh_cons sep f (g :: fs2) (List.cons_ne_nil g fs2)]
      rw [splitCh_append_of_not_mem sep f (sep :: joinCh sep (g :: fs2)) hf]
      have hcons : splitCh sep (sep :: joinCh sep (g :: fs2))
          = [] :: splitCh sep (joinCh sep (g :: fs2)) := by
        simp [splitCh]
      rw [hcons, ih (List.cons_ne_nil g fs2)
        (fun x hx => hmem x (List.mem_cons_of_mem f hx))]
      simp

theorem not_mem_joinCh (sep c : Char) (hc : c ≠ sep) :
    ∀ fs : List (List Char), (∀ f ∈ fs, c ∉ f) → c ∉ joinCh sep fs := by
  intro fs
  induction fs with
  | nil => intro _; simp [joinCh]
  | cons f fs ih =>
    intro h
    cases fs with
    | nil =>
      simpa [joinCh] using h f (List.mem_cons_self f [])
    | cons g fs2 =>
      rw [joinCh_cons sep f (g :: fs2) (List.cons_ne_nil g fs2)]
      intro hmem
      rcases List.mem_append.mp hmem with h1 | h1
      · exact h f (List.mem_cons_self f _) h1
      · rcases List.mem_cons.mp h1 with h2 | h2
        · exact hc h2
        · exact ih (fun x hx => h x (List.mem_cons_of_mem f hx)) h2

theorem flatten_newline_eq_joinCh (lines : List (List Char)) :
    (lines.map (fun l => l ++ ['\n'])).flatten = joinCh '\n' (lines ++ [[]]) := by
  induction lines with
  | nil => rfl
  | cons a lines ih =>
    simp only [List.map_cons, List.flatten_cons, ih, List.cons_append]
    rw [joinCh_cons '\n' a (lines ++ [[]]) (by simp)]
    simp

/-- The reader from the round-trip property of the spec (modelled from
the spec: split the written content into lines, drop the trailing empty
segment after the final newline, drop the header line, and split each
remaining data line on the horizontal-tab character). -/
def parseBackFields (content : List Char) : List (List (List Char)) :=
  (((splitCh '\n' content).dropLast).drop 1).map (splitCh '\t')

/-- Claim C9 amended: writing a row list to a new file and then parsing
it back by splitting each data line on tabs yields exactly the derived
field values of each row, in the writer's fixed column order (the
header order of the output file, with labels between epic summary and
resolution — not the order listed in the spec's field-derivation
paragraph), provided no derived field value contains a tab or a newline
character. -/
theorem C9_roundtrip_amended (fs : String → Option (List Char))
    (dateFmt : String → Option String) (pairP : Bool) (pairN outputFile : String)
    (epicTitles : String → Option String) (rows : List MultisprintIssue)
    (hclean : ∀ mi ∈ rows, ∀ fld ∈ buildRow dateFmt pairP pairN epicTitles mi,
        '\t' ∉ fld.data ∧ '\n' ∉ fld.data) :
    parseBackFields
        (writeOutputFile fs dateFmt pairP pairN outputFile rows epicTitles false).1
      = rows.map (fun mi => (buildRow dateFmt pairP pairN epicTitles mi).map String.data) := by
  have hcontent : (writeOutputFile fs dateFmt pairP pairN outputFile rows epicTitles false).1
      = ((headerChars :: rows.map (fun mi => rowChars dateFmt pairP pairN epicTitles mi)).map
          (fun l => l ++ ['\n'])).flatten := by
    simp [writeOutputFile, dataChars, List.map_map, Function.comp_def]
  have hline : ∀ mi ∈ rows, '\n' ∉ rowChars dateFmt pairP pairN epicTitles mi := by
    intro mi hmi
    apply not_mem_joinCh '\t' '\n' (by decide)
    intro f hf
    obtain ⟨str2, hs, rfl⟩ := List.mem_map.mp hf
    exact (hclean mi hmi str2 hs).2
  have hheader : ('\n' : Char) ∉ headerChars := by decide
  have hsplitrow : ∀ mi ∈ rows,
      splitCh '\t' (rowChars dateFmt pairP pairN epicTitles mi)
        = (buildRow dateFmt pairP pairN epicTitles mi).map String.data := by
    intro mi hmi
    show splitCh '\t'
        (joinCh '\t' ((buildRow dateFmt pairP pairN epicTitles mi).map String.data)) = _
    apply splitCh_joinCh
    · simp [buildRow]
    · intro f hf
      obtain ⟨str2, hs, rfl⟩ := List.mem_map.mp hf
      exact (hclean mi hmi str2 hs).1
  have hall : ∀ l ∈ (headerChars ::
      rows.map (fun mi => rowChars dateFmt pairP pairN epicTitles mi)) ++ [[]],
      '\n' ∉ l := by
    intro l hl
    rcases List.mem_append.mp hl with h1 | h1
    · rcases List.mem_cons.mp h1 with h2 | h2
      · rw [h2]; exact hheader
      · obtain ⟨mi, hmi, rfl⟩ := List.mem_map.mp h2
        exact hline mi hmi
    · rw [List.mem_singleton.mp h1]
      simp
  have hdrop : ((headerChars ::
      rows.map (fun mi => rowChars dateFmt pairP pairN epicTitles mi)) ++ [[]]).dropLast
      = headerChars :: rows.map (fun mi => rowChars dateFmt pairP pairN epicTitles mi) :=
    List.dropLast_concat
  rw [parseBackFields, hcontent, flatten_newline_eq_joinCh,
    splitCh_joinCh '\n' _ (by simp) hall, hdrop]
  simp only [List.drop_succ_cons, List.drop_zero, List.map_map]
  refine List.map_congr_left ?_
  intro mi hmi
  simpa using hsplitrow mi hmi

/-- An issue whose summary holds a horizontal tab. -/
def issueTab : Issue := ⟨"K", { sampleFields with summary := "a\tb" }⟩

/-- A row over `issueTab`. -/
def miTab : MultisprintIssue :=
  ⟨issueTab, 2, "No Epic", none, parseSprintField GoVal.null⟩

/-- Counterexample for C9 as stated: with a tab inside one field value,
splitting the data line back on tabs yields 23 segments, which cannot
equal the 22 derived field values in any column order. -/
theorem C9_roundtrip_counterexample :
    ((parseBackFields (writeOutputFile (fun _ => none) (fun _ => none) false "" "r"
        [miTab] (fun _ => none) false).1).map List.length) = [23] ∧
    (buildRow (fun _ => none) false "" (fun _ => none) miTab).length = 22 ∧
    parseBackFields (writeOutputFile (fun _ => none) (fun _ => none) false "" "r"
        [miTab] (fun _ => none) false).1
      ≠ [(buildRow (fun _ => none) false "" (fun _ => none) miTab).map String.data] := by
  refine ⟨by decide, rfl, by decide⟩

/-- Witness for C9 amended: the round trip at a concrete tab-free
row. -/
theorem C9_roundtrip_amended_witness :
    parseBackFields (writeOutputFile (fun _ => none) (fun _ => none) false "" "r"
        [miColumns] (fun _ => none) false).1
      = [(buildRow (fun _ => none) false "" (fun _ => none) miColumns).map String.data] :=
  C9_roundtrip_amended (fun _ => none) (fun _ => none) false "" "r" (fun _ => none)
    [miColumns] (by decide)

end JiraSpillover
